import Mathlib

/-!
Placement selector of `include/fastfunc.h`.

The header is ten preprocessing lines.  It is embedded as the list of its
directives (`fastfunc_h`), and run by a small model of the preprocessor:
a table of object-like macros, a stack of conditional groups, and macro
replacement with rescanning.  The sections a declaration asks for are read
off the preprocessed tokens by `sectionRequests`.
-/

namespace FastFunc

/-! ## Preprocessing tokens -/

/-- Preprocessing tokens: identifiers, numbers, punctuators and string
literals.  Only identifiers can name a macro. -/
inductive Token where
  | ident (name : String)
  | number (digits : String)
  | punct (sym : String)
  | strLit (text : String)
  deriving DecidableEq, Repr

/-- Table of object-like macros: name and replacement list. -/
abbrev MacroEnv := List (String × List Token)

/-- Replacement list of a macro; `none` when the name is not defined. -/
def lookupMacro (env : MacroEnv) (n : String) : Option (List Token) :=
  match env with
  | [] => none
  | (m, body) :: rest => if m = n then some body else lookupMacro rest n

/-- Directive `#undef n`. -/
def undefMacro (env : MacroEnv) (n : String) : MacroEnv :=
  match env with
  | [] => []
  | (m, body) :: rest =>
    if m = n then undefMacro rest n else (m, body) :: undefMacro rest n

/-- Directive `#define n body`.  A definition of a name that is already
defined replaces the earlier one (the GNU preprocessor warns about an
incompatible redefinition and goes on with the new replacement list). -/
def defineMacro (env : MacroEnv) (n : String) (body : List Token) : MacroEnv :=
  (n, body) :: undefMacro env n

/-- Whether `#ifdef n` holds. -/
def isDefined (env : MacroEnv) (n : String) : Bool :=
  (lookupMacro env n).isSome

/-! ## Macro replacement -/

/-- Replacement of one token, with rescanning.  While the replacement list
of `n` is rescanned the name `n` is not replaced again, which is the same as
rescanning in the table without `n`.  The first argument bounds the nesting
depth; `expandLine` starts it at the size of the table, and every level
removes at least one entry (`expandTok_fuel`). -/
def expandTok : Nat → MacroEnv → Token → List Token
  | 0, _, t => [t]
  | fuel + 1, env, Token.ident n =>
    match lookupMacro env n with
    | none => [Token.ident n]
    | some body => body.flatMap (fun u => expandTok fuel (undefMacro env n) u)
  | _ + 1, _, t => [t]

/-- Macro replacement of a line of text. -/
def expandLine (env : MacroEnv) (toks : List Token) : List Token :=
  toks.flatMap (fun t => expandTok env.length env t)

/-! ## Directives and the preprocessor state -/

/-- The lines a source file is made of.  A line of text is its tokens; a
blank line is a line of text without tokens. -/
inductive Directive where
  | ifdef (n : String)
  | ifndef (n : String)
  | elseD
  | endif
  | define (n : String) (body : List Token)
  | undef (n : String)
  | text (toks : List Token)
  deriving DecidableEq, Repr

/-- One open conditional group. -/
structure CondFrame where
  /-- the enclosing group was being processed when this one was opened -/
  parentActive : Bool
  /-- a branch of this group has been selected already -/
  taken : Bool
  /-- the current branch is being processed -/
  active : Bool
  /-- `#else` has been seen -/
  seenElse : Bool
  deriving DecidableEq, Repr

/-- State of the preprocessor inside a translation unit. -/
structure PPState where
  macros : MacroEnv
  conds : List CondFrame
  /-- the preprocessed text so far, line by line -/
  out : List (List Token)
  deriving DecidableEq, Repr

/-- Errors of the preprocessor. -/
inductive PPError where
  | elseWithoutIf
  | elseAfterElse
  | endifWithoutIf
  | unterminatedConditional
  deriving DecidableEq, Repr

/-- Whether lines are currently processed or skipped. -/
def PPState.active (s : PPState) : Bool :=
  match s.conds with
  | [] => true
  | f :: _ => f.active

/-- Opens a conditional group whose condition evaluated to `c`. -/
def openCond (s : PPState) (c : Bool) : PPState :=
  { s with conds :=
      { parentActive := s.active, taken := s.active && c,
        active := s.active && c, seenElse := false } :: s.conds }

/-- One line of a file. -/
def step (s : PPState) : Directive → Except PPError PPState
  | Directive.ifdef n => Except.ok (openCond s (isDefined s.macros n))
  | Directive.ifndef n => Except.ok (openCond s (!isDefined s.macros n))
  | Directive.elseD =>
    match s.conds with
    | [] => Except.error PPError.elseWithoutIf
    | f :: fs =>
      if f.seenElse then Except.error PPError.elseAfterElse
      else Except.ok { s with conds :=
        { f with active := f.parentActive && !f.taken, taken := true,
                 seenElse := true } :: fs }
  | Directive.endif =>
    match s.conds with
    | [] => Except.error PPError.endifWithoutIf
    | _ :: fs => Except.ok { s with conds := fs }
  | Directive.define n body =>
    Except.ok (if s.active then { s with macros := defineMacro s.macros n body } else s)
  | Directive.undef n =>
    Except.ok (if s.active then { s with macros := undefMacro s.macros n } else s)
  | Directive.text toks =>
    Except.ok (if s.active then { s with out := s.out ++ [expandLine s.macros toks] } else s)

/-- The lines of a file, in order. -/
def run : List Directive → PPState → Except PPError PPState
  | [], s => Except.ok s
  | d :: ds, s =>
    match step s d with
    | Except.ok s1 => run ds s1
    | Except.error e => Except.error e

/-- Directive `#include` of a file: its lines are processed in place; the
conditional groups of a file have to be closed in that file. -/
def includeFile (file : List Directive) (s : PPState) : Except PPError PPState :=
  if s.active then
    match run file { s with conds := [] } with
    | Except.ok s1 =>
      if s1.conds = [] then Except.ok { s1 with conds := s.conds }
      else Except.error PPError.unterminatedConditional
    | Except.error e => Except.error e
  else Except.ok s

/-- Lines of a translation unit: a line of its own, or the inclusion of a file. -/
inductive Item where
  | line (d : Directive)
  | incl (file : List Directive)
  deriving DecidableEq, Repr

/-- One line of a translation unit. -/
def stepItem (s : PPState) : Item → Except PPError PPState
  | Item.line d => step s d
  | Item.incl file => includeFile file s

/-- The lines of a translation unit, in order. -/
def runItems : List Item → PPState → Except PPError PPState
  | [], s => Except.ok s
  | i :: is, s =>
    match stepItem s i with
    | Except.ok s1 => runItems is s1
    | Except.error e => Except.error e

/-- State at the start of a translation unit, with the macros of the build
configuration. -/
def initState (env0 : MacroEnv) : PPState :=
  { macros := env0, conds := [], out := [] }

/-- Preprocessing of a whole translation unit. -/
def preprocess (tu : List Item) (env0 : MacroEnv) : Except PPError PPState :=
  match runItems tu (initState env0) with
  | Except.ok s =>
    if s.conds = [] then Except.ok s else Except.error PPError.unterminatedConditional
  | Except.error e => Except.error e

/-! ## The header -/

/-- Include guard of the header. -/
def FASTFUNC_H_ : String := "FASTFUNC_H_"

/-- The feature flag. -/
def CODE_IN_RAM : String := "CODE_IN_RAM"

/-- The placement marker. -/
def FAST_FUNC : String := "FAST_FUNC"

/-- Replacement list of line 5: `__attribute__ ((section (".data")))`. -/
def sectionAttr : List Token :=
  [Token.ident "__attribute__", Token.punct "(", Token.punct "(",
   Token.ident "section", Token.punct "(", Token.strLit ".data",
   Token.punct ")", Token.punct ")", Token.punct ")"]

/-- The file `include/fastfunc.h`, line by line. -/
def fastfunc_h : List Directive :=
  [ Directive.ifndef FASTFUNC_H_,
    Directive.define FASTFUNC_H_ [],
    Directive.text [],
    Directive.ifdef CODE_IN_RAM,
    Directive.define FAST_FUNC sectionAttr,
    Directive.elseD,
    Directive.define FAST_FUNC [],
    Directive.endif,
    Directive.text [],
    Directive.endif ]

/-- Macro table after the body of the header has been processed in the table
`env`: lines 2 and 5 or 7. -/
def afterHeader (env : MacroEnv) : MacroEnv :=
  defineMacro (defineMacro env FASTFUNC_H_ [])
    FAST_FUNC (if isDefined env CODE_IN_RAM then sectionAttr else [])

/-! ## Section requests of preprocessed text -/

/-- The section attribute `__attribute__ ((section ("name")))` at the head
of a token sequence, if there is one: its section name. -/
def attrAt (toks : List Token) : Option String :=
  match toks with
  | a :: p1 :: p2 :: b :: p3 :: Token.strLit s :: p4 :: p5 :: p6 :: _ =>
    if [a, p1, p2, b, p3, p4, p5, p6] =
        [Token.ident "__attribute__", Token.punct "(", Token.punct "(",
         Token.ident "section", Token.punct "(",
         Token.punct ")", Token.punct ")", Token.punct ")"]
    then some s else none
  | _ => none

/-- Section names asked for by the section attributes of a preprocessed
declaration, in order of appearance. -/
def sectionRequests : List Token → List String
  | [] => []
  | t :: rest =>
    match attrAt (t :: rest) with
    | some s => s :: sectionRequests rest
    | none => sectionRequests rest

/-- Where the code of a function goes. -/
inductive Placement where
  | default
  | named (s : String)
  | conflict
  deriving DecidableEq, Repr

/-- Placement from the section requests of all declarations of a function:
none leaves the default section, requests that agree name the section, and
requests that disagree are a conflict. -/
def assignSection : List String → Placement
  | [] => Placement.default
  | s :: rest => if rest.all (fun r => r = s) then Placement.named s else Placement.conflict

/-- Placement of a function from the preprocessed lines of its declarations,
each line being one declaration (or blank). -/
def placementOf (decls : List (List Token)) : Placement :=
  assignSection (decls.flatMap sectionRequests)

/-! ## Side conditions of the frame properties -/

/-- No replacement list of the table mentions the identifier `n`. -/
def nowhereMentioned (env : MacroEnv) (n : String) : Prop :=
  ∀ p ∈ env, Token.ident n ∉ p.2

instance (env : MacroEnv) (n : String) : Decidable (nowhereMentioned env n) :=
  inferInstanceAs (Decidable (∀ p ∈ env, Token.ident n ∉ p.2))

/-- Lines of a translation unit that leave the marker and the include guard
alone: every line of its own except a definition or removal of `FAST_FUNC` or
`FASTFUNC_H_`, and further inclusions of the header.  Definitions and removals
of the flag are among them. -/
def leavesMarkerAlone : Item → Bool
  | Item.line (Directive.define n _) => decide (n ≠ FAST_FUNC ∧ n ≠ FASTFUNC_H_)
  | Item.line (Directive.undef n) => decide (n ≠ FAST_FUNC ∧ n ≠ FASTFUNC_H_)
  | Item.line _ => true
  | Item.incl file => decide (file = fastfunc_h)

/-- Lines that neither open, switch nor close a conditional group. -/
def unconditional : Item → Bool
  | Item.line (Directive.ifdef _) => false
  | Item.line (Directive.ifndef _) => false
  | Item.line Directive.elseD => false
  | Item.line Directive.endif => false
  | _ => true

/-- State in which the header has been included and the marker has the
replacement list `m`. -/
def markerFixed (m : List Token) (s : PPState) : Prop :=
  isDefined s.macros FASTFUNC_H_ = true ∧ lookupMacro s.macros FAST_FUNC = some m

/-! ## Macro table lemmas -/

theorem lookupMacro_undefMacro_self (env : MacroEnv) (n : String) :
    lookupMacro (undefMacro env n) n = none := by
  induction env with
  | nil => rfl
  | cons p rest ih =>
    obtain ⟨m, body⟩ := p
    by_cases h : m = n
    · simp [undefMacro, h, ih]
    · simp [undefMacro, lookupMacro, h, ih]

theorem lookupMacro_undefMacro_ne (env : MacroEnv) {n k : String} (h : n ≠ k) :
    lookupMacro (undefMacro env n) k = lookupMacro env k := by
  induction env with
  | nil => rfl
  | cons p rest ih =>
    obtain ⟨m, body⟩ := p
    by_cases hm : m = n
    · subst hm
      simp [undefMacro, lookupMacro, h, ih]
    · by_cases hk : m = k
      · subst hk
        simp [undefMacro, lookupMacro, hm]
      · simp [undefMacro, lookupMacro, hm, hk, ih]

theorem lookupMacro_defineMacro_self (env : MacroEnv) (n : String) (body : List Token) :
    lookupMacro (defineMacro env n body) n = some body := by
  simp [defineMacro, lookupMacro]

theorem lookupMacro_defineMacro_ne (env : MacroEnv) {n k : String} (body : List Token)
    (h : n ≠ k) : lookupMacro (defineMacro env n body) k = lookupMacro env k := by
  simp [defineMacro, lookupMacro, h, lookupMacro_undefMacro_ne env h]

theorem isDefined_defineMacro_ne (env : MacroEnv) {n k : String} (body : List Token)
    (h : n ≠ k) : isDefined (defineMacro env n body) k = isDefined env k := by
  simp [isDefined, lookupMacro_defineMacro_ne env body h]

/-! ## Macro replacement lemmas -/

theorem length_undefMacro_le (env : MacroEnv) (n : String) :
    (undefMacro env n).length ≤ env.length := by
  induction env with
  | nil => simp [undefMacro]
  | cons p rest ih =>
    obtain ⟨m, body⟩ := p
    by_cases h : m = n
    · simp [undefMacro, h]; omega
    · simp [undefMacro, h]; omega

theorem length_undefMacro_lt (env : MacroEnv) (n : String) (body : List Token)
    (h : lookupMacro env n = some body) : (undefMacro env n).length < env.length := by
  induction env with
  | nil => simp [lookupMacro] at h
  | cons p rest ih =>
    obtain ⟨m, b⟩ := p
    by_cases hm : m = n
    · have := length_undefMacro_le rest n
      simp [undefMacro, hm]; omega
    · simp [lookupMacro, hm] at h
      have := ih h
      simp [undefMacro, hm]; omega

/-- The nesting bound of `expandLine` is enough: a larger one gives the same
replacement. -/
theorem expandTok_fuel (f1 : Nat) : ∀ (f2 : Nat) (env : MacroEnv) (t : Token),
    env.length ≤ f1 → env.length ≤ f2 → expandTok f1 env t = expandTok f2 env t := by
  induction f1 with
  | zero =>
    intro f2 env t h1 _
    have he : env = [] := List.eq_nil_of_length_eq_zero (Nat.le_zero.mp h1)
    subst he
    cases f2 with
    | zero => rfl
    | succ f2 => cases t <;> simp [expandTok, lookupMacro]
  | succ f1 ih =>
    intro f2 env t h1 h2
    cases f2 with
    | zero =>
      have he : env = [] := List.eq_nil_of_length_eq_zero (Nat.le_zero.mp h2)
      subst he
      cases t <;> simp [expandTok, lookupMacro]
    | succ f2 =>
      cases t with
      | ident n =>
        cases hl : lookupMacro env n with
        | none => simp [expandTok, hl]
        | some body =>
          have hlt := length_undefMacro_lt env n body hl
          simp only [expandTok, hl]
          exact List.flatMap_congr (fun u _ =>
            ih f2 (undefMacro env n) u (by omega) (by omega))
      | number x => simp [expandTok]
      | punct p => simp [expandTok]
      | strLit x => simp [expandTok]

theorem expandTok_punct (fuel : Nat) (env : MacroEnv) (p : String) :
    expandTok fuel env (Token.punct p) = [Token.punct p] := by
  cases fuel <;> simp [expandTok]

theorem expandTok_number (fuel : Nat) (env : MacroEnv) (x : String) :
    expandTok fuel env (Token.number x) = [Token.number x] := by
  cases fuel <;> simp [expandTok]

theorem expandTok_strLit (fuel : Nat) (env : MacroEnv) (x : String) :
    expandTok fuel env (Token.strLit x) = [Token.strLit x] := by
  cases fuel <;> simp [expandTok]

theorem expandTok_ident_none (fuel : Nat) (env : MacroEnv) (n : String)
    (h : lookupMacro env n = none) :
    expandTok fuel env (Token.ident n) = [Token.ident n] := by
  cases fuel <;> simp [expandTok, h]

theorem expandTok_ident_some (env : MacroEnv) (n : String) (body : List Token)
    (h : lookupMacro env n = some body) :
    expandTok env.length env (Token.ident n) = expandLine (undefMacro env n) body := by
  have hlt := length_undefMacro_lt env n body h
  obtain ⟨k, hk⟩ : ∃ k, env.length = k + 1 := ⟨env.length - 1, by omega⟩
  rw [hk]
  simp only [expandTok, h, expandLine]
  exact List.flatMap_congr (fun u _ =>
    expandTok_fuel k _ (undefMacro env n) u (by omega) (Nat.le_refl _))

theorem expandLine_nil (env : MacroEnv) : expandLine env [] = [] := rfl

theorem expandLine_cons (env : MacroEnv) (t : Token) (d : List Token) :
    expandLine env (t :: d) = expandTok env.length env t ++ expandLine env d := by
  simp [expandLine]

theorem expandLine_append (env : MacroEnv) (d e : List Token) :
    expandLine env (d ++ e) = expandLine env d ++ expandLine env e := by
  simp [expandLine]

/-- A use of a macro at the head of a line: its replacement list, rescanned
without the macro itself, followed by the rest of the line. -/
theorem expandLine_macro_cons (env : MacroEnv) (n : String) (body d : List Token)
    (h : lookupMacro env n = some body) :
    expandLine env (Token.ident n :: d) =
      expandLine (undefMacro env n) body ++ expandLine env d := by
  rw [expandLine_cons, expandTok_ident_some env n body h]

/-- The section attribute is left alone when neither of its identifiers is a
macro. -/
theorem expandLine_sectionAttr (env : MacroEnv)
    (h1 : lookupMacro env "__attribute__" = none) (h2 : lookupMacro env "section" = none) :
    expandLine env sectionAttr = sectionAttr := by
  simp [expandLine, sectionAttr, expandTok_punct, expandTok_strLit,
    expandTok_ident_none _ env _ h1, expandTok_ident_none _ env _ h2]

/-! ## Section request lemmas -/

theorem attrAt_of_head_ne (t : Token) (rest : List Token)
    (h : t ≠ Token.ident "__attribute__") : attrAt (t :: rest) = none := by
  unfold attrAt
  split
  · rename_i a p1 p2 b p3 s p4 p5 p6 tl heq
    have ha : t = a := by
      injection heq with h1 _
    subst ha
    simp [h]
  · rfl

theorem sectionRequests_nil : sectionRequests [] = [] := rfl

/-- A section attribute in front of a declaration adds its section to the
requests of the declaration. -/
theorem sectionRequests_sectionAttr_append (d : List Token) :
    sectionRequests (sectionAttr ++ d) = ".data" :: sectionRequests d := by
  have h0 : attrAt (sectionAttr ++ d) = some ".data" := by
    simp [sectionAttr, attrAt]
  have hskip : ∀ (t : Token) (rest : List Token), t ≠ Token.ident "__attribute__" →
      sectionRequests (t :: rest) = sectionRequests rest := by
    intro t rest ht
    simp [sectionRequests, attrAt_of_head_ne t rest ht]
  have h1 : sectionRequests (sectionAttr ++ d) =
      ".data" :: sectionRequests (sectionAttr.tail ++ d) := by
    have hc : sectionAttr ++ d = Token.ident "__attribute__" :: (sectionAttr.tail ++ d) := by
      simp [sectionAttr]
    rw [hc] at h0 ⊢
    simp [sectionRequests, h0]
  rw [h1]
  simp only [sectionAttr, List.tail_cons, List.cons_append, List.nil_append]
  rw [hskip _ _ (by decide), hskip _ _ (by decide), hskip _ _ (by decide),
    hskip _ _ (by decide), hskip _ _ (by decide), hskip _ _ (by decide),
    hskip _ _ (by decide), hskip _ _ (by decide)]

/-! ## What the header does -/

theorem guard_ne_flag : FASTFUNC_H_ ≠ CODE_IN_RAM := by decide

/-- The lines of the header from a state outside every conditional group.
With the guard undefined the two macros are defined and the two blank lines
are passed on; with the guard defined nothing changes.  Every group is closed
again. -/
theorem run_fastfunc_h (env : MacroEnv) (out : List (List Token)) :
    run fastfunc_h { macros := env, conds := [], out := out } =
      Except.ok (if isDefined env FASTFUNC_H_ then { macros := env, conds := [], out := out }
        else { macros := afterHeader env, conds := [], out := out ++ [[], []] }) := by
  have hflag : isDefined (defineMacro env FASTFUNC_H_ []) CODE_IN_RAM
      = isDefined env CODE_IN_RAM := isDefined_defineMacro_ne env [] guard_ne_flag
  cases hg : isDefined env FASTFUNC_H_ <;> cases hf : isDefined env CODE_IN_RAM <;>
    simp [fastfunc_h, run, step, openCond, PPState.active, afterHeader, expandLine, hg, hf, hflag]

/-- Inclusion of the header at a point where lines are processed. -/
theorem includeFile_fastfunc_h (s : PPState) (h : s.active = true) :
    includeFile fastfunc_h s =
      Except.ok (if isDefined s.macros FASTFUNC_H_ then s
        else { s with macros := afterHeader s.macros, out := s.out ++ [[], []] }) := by
  cases hg : isDefined s.macros FASTFUNC_H_ <;>
    simp [includeFile, h, run_fastfunc_h, hg]


theorem initState_active (env0 : MacroEnv) : (initState env0).active = true := rfl

theorem isDefined_eq_false_of_lookup {env : MacroEnv} {n : String}
    (h : lookupMacro env n = none) : isDefined env n = false := by
  simp [isDefined, h]

theorem isDefined_eq_true_of_lookup {env : MacroEnv} {n : String} {body : List Token}
    (h : lookupMacro env n = some body) : isDefined env n = true := by
  simp [isDefined, h]

/-- First inclusion of the header at the start of a translation unit. -/
theorem includeFile_first (env0 : MacroEnv) (hguard : lookupMacro env0 FASTFUNC_H_ = none) :
    includeFile fastfunc_h (initState env0) =
      Except.ok { macros := afterHeader env0, conds := [], out := [[], []] } := by
  rw [includeFile_fastfunc_h _ (initState_active env0)]
  simp [initState, isDefined_eq_false_of_lookup hguard]

theorem lookupMacro_afterHeader_marker (env : MacroEnv) :
    lookupMacro (afterHeader env) FAST_FUNC =
      some (if isDefined env CODE_IN_RAM then sectionAttr else []) := by
  simp [afterHeader, lookupMacro_defineMacro_self]

theorem lookupMacro_afterHeader_guard (env : MacroEnv) :
    lookupMacro (afterHeader env) FASTFUNC_H_ = some [] := by
  have h : FAST_FUNC ≠ FASTFUNC_H_ := by decide
  simp [afterHeader, lookupMacro_defineMacro_ne _ _ h, lookupMacro_defineMacro_self]

theorem lookupMacro_afterHeader_other (env : MacroEnv) {k : String}
    (h1 : FAST_FUNC ≠ k) (h2 : FASTFUNC_H_ ≠ k) :
    lookupMacro (afterHeader env) k = lookupMacro env k := by
  simp [afterHeader, lookupMacro_defineMacro_ne _ _ h1, lookupMacro_defineMacro_ne _ _ h2]

/-- The header, then one line of text. -/
theorem preprocess_header_line (env0 : MacroEnv) (toks : List Token)
    (hguard : lookupMacro env0 FASTFUNC_H_ = none) :
    preprocess [Item.incl fastfunc_h, Item.line (Directive.text toks)] env0 =
      Except.ok { macros := afterHeader env0, conds := [],
                  out := [[], [], expandLine (afterHeader env0) toks] } := by
  simp [preprocess, runItems, stepItem, includeFile_first env0 hguard, step, PPState.active]

/-- The header, then two lines of text. -/
theorem preprocess_header_two_lines (env0 : MacroEnv) (l1 l2 : List Token)
    (hguard : lookupMacro env0 FASTFUNC_H_ = none) :
    preprocess [Item.incl fastfunc_h, Item.line (Directive.text l1),
        Item.line (Directive.text l2)] env0 =
      Except.ok { macros := afterHeader env0, conds := [],
                  out := [[], [], expandLine (afterHeader env0) l1,
                          expandLine (afterHeader env0) l2] } := by
  simp [preprocess, runItems, stepItem, includeFile_first env0 hguard, step, PPState.active]

/-- A marked line after the header, with the flag defined and the identifiers
of the attribute not defined as macros: the attribute, then the line. -/
theorem expandLine_marked_on (env0 : MacroEnv) (d : List Token)
    (hflag : isDefined env0 CODE_IN_RAM = true)
    (h1 : lookupMacro env0 "__attribute__" = none) (h2 : lookupMacro env0 "section" = none) :
    expandLine (afterHeader env0) (Token.ident FAST_FUNC :: d) =
      sectionAttr ++ expandLine (afterHeader env0) d := by
  have hm : lookupMacro (afterHeader env0) FAST_FUNC = some sectionAttr := by
    simp [lookupMacro_afterHeader_marker, hflag]
  rw [expandLine_macro_cons _ _ _ _ hm, expandLine_sectionAttr]
  · rw [lookupMacro_undefMacro_ne _ (by decide), lookupMacro_afterHeader_other _ (by decide)
      (by decide), h1]
  · rw [lookupMacro_undefMacro_ne _ (by decide), lookupMacro_afterHeader_other _ (by decide)
      (by decide), h2]

/-- A marked line after the header, with the flag undefined: the line. -/
theorem expandLine_marked_off (env0 : MacroEnv) (d : List Token)
    (hflag : isDefined env0 CODE_IN_RAM = false) :
    expandLine (afterHeader env0) (Token.ident FAST_FUNC :: d) =
      expandLine (afterHeader env0) d := by
  have hm : lookupMacro (afterHeader env0) FAST_FUNC = some [] := by
    simp [lookupMacro_afterHeader_marker, hflag]
  rw [expandLine_macro_cons _ _ _ _ hm, expandLine_nil, List.nil_append]

/-! ## Replacement in two tables that differ in a few names -/

theorem mem_of_lookupMacro {env : MacroEnv} {k : String} {body : List Token}
    (h : lookupMacro env k = some body) : (k, body) ∈ env := by
  induction env with
  | nil => simp [lookupMacro] at h
  | cons p rest ih =>
    obtain ⟨m, b⟩ := p
    by_cases hm : m = k
    · simp [lookupMacro, hm] at h
      simp [hm, h]
    · simp [lookupMacro, hm] at h
      exact List.mem_cons_of_mem _ (ih h)

theorem lookupMacro_undefMacro (env : MacroEnv) (n k : String) :
    lookupMacro (undefMacro env n) k = if n = k then none else lookupMacro env k := by
  by_cases h : n = k
  · subst h
    simp [lookupMacro_undefMacro_self]
  · simp [h, lookupMacro_undefMacro_ne env h]

/-- Two tables that agree outside the names `bad`, whose other replacement
lists do not mention those names, replace a token that is none of those names
in the same way. -/
theorem expandTok_agree (bad : String → Prop) (fuel : Nat) :
    ∀ (env1 env2 : MacroEnv) (t : Token),
      (∀ k, ¬ bad k → lookupMacro env1 k = lookupMacro env2 k) →
      (∀ k body, ¬ bad k → lookupMacro env1 k = some body →
        ∀ m, bad m → Token.ident m ∉ body) →
      (∀ m, bad m → t ≠ Token.ident m) →
      expandTok fuel env1 t = expandTok fuel env2 t := by
  induction fuel with
  | zero => intro env1 env2 t _ _ _; rfl
  | succ fuel ih =>
    intro env1 env2 t hagree hbody ht
    cases t with
    | ident n =>
      have hn : ¬ bad n := fun hb => ht n hb rfl
      have hl := hagree n hn
      cases h1 : lookupMacro env1 n with
      | none =>
        rw [h1] at hl
        simp [expandTok, h1, ← hl]
      | some body =>
        rw [h1] at hl
        simp only [expandTok, h1, ← hl]
        refine List.flatMap_congr (fun u hu => ih _ _ u ?_ ?_ ?_)
        · intro k hk
          rw [lookupMacro_undefMacro, lookupMacro_undefMacro, hagree k hk]
        · intro k b hk hkb
          rw [lookupMacro_undefMacro] at hkb
          by_cases hnk : n = k
          · simp [hnk] at hkb
          · simp only [hnk, if_false] at hkb
            exact hbody k b hk hkb
        · intro m hm hu'
          subst hu'
          exact hbody n body hn h1 m hm hu
    | number x => simp [expandTok]
    | punct x => simp [expandTok]
    | strLit x => simp [expandTok]

/-- The same for a line. -/
theorem expandLine_agree (bad : String → Prop) (env1 env2 : MacroEnv) (d : List Token)
    (hagree : ∀ k, ¬ bad k → lookupMacro env1 k = lookupMacro env2 k)
    (hbody : ∀ k body, ¬ bad k → lookupMacro env1 k = some body →
      ∀ m, bad m → Token.ident m ∉ body)
    (hd : ∀ m, bad m → Token.ident m ∉ d) :
    expandLine env1 d = expandLine env2 d := by
  unfold expandLine
  refine List.flatMap_congr (fun t ht => ?_)
  rw [expandTok_fuel env1.length (max env1.length env2.length) env1 t (Nat.le_refl _)
      (Nat.le_max_left _ _),
    expandTok_fuel env2.length (max env1.length env2.length) env2 t (Nat.le_refl _)
      (Nat.le_max_right _ _)]
  refine expandTok_agree bad _ env1 env2 t hagree hbody ?_
  intro m hm hmt
  subst hmt
  exact hd m hm ht

/-- After the header, a line that reaches neither the marker nor the flag has
the same replacement whether the flag was defined or not. -/
theorem expandLine_afterHeader_flag (env0 : MacroEnv) (v d : List Token)
    (hd1 : Token.ident FAST_FUNC ∉ d) (hd2 : Token.ident CODE_IN_RAM ∉ d)
    (hm1 : nowhereMentioned env0 FAST_FUNC) (hm2 : nowhereMentioned env0 CODE_IN_RAM) :
    expandLine (afterHeader (defineMacro env0 CODE_IN_RAM v)) d =
      expandLine (afterHeader env0) d := by
  have hlook : ∀ (e : MacroEnv) (k : String), FAST_FUNC ≠ k →
      lookupMacro (afterHeader e) k = if FASTFUNC_H_ = k then some [] else lookupMacro e k := by
    intro e k hk
    by_cases hg : FASTFUNC_H_ = k
    · subst hg
      simp [lookupMacro_afterHeader_guard]
    · simp [hg, lookupMacro_afterHeader_other e hk hg]
  refine expandLine_agree (fun k => k = FAST_FUNC ∨ k = CODE_IN_RAM) _ _ d ?_ ?_ ?_
  · intro k hk
    have hk1 : FAST_FUNC ≠ k := fun e => hk (Or.inl e.symm)
    have hk2 : CODE_IN_RAM ≠ k := fun e => hk (Or.inr e.symm)
    rw [hlook _ k hk1, hlook _ k hk1, lookupMacro_defineMacro_ne _ _ hk2]
  · intro k body hk hkb m hm
    have hk1 : FAST_FUNC ≠ k := fun e => hk (Or.inl e.symm)
    have hk2 : CODE_IN_RAM ≠ k := fun e => hk (Or.inr e.symm)
    rw [hlook _ k hk1, lookupMacro_defineMacro_ne _ _ hk2] at hkb
    by_cases hg : FASTFUNC_H_ = k
    · simp only [hg, if_true, Option.some.injEq] at hkb
      subst hkb
      simp
    · simp only [hg, if_false] at hkb
      have hmem := mem_of_lookupMacro hkb
      rcases hm with hm | hm
      · subst hm
        exact hm1 _ hmem
      · subst hm
        exact hm2 _ hmem
  · intro m hm
    rcases hm with hm | hm
    · subst hm
      exact hd1
    · subst hm
      exact hd2

/-! ## Placement lemmas -/

/-- When a section is among the requests, the placement is that section if
all requests name it and a conflict otherwise. -/
theorem assignSection_of_mem (s : String) (l : List String) (h : s ∈ l) :
    assignSection l =
      if l.all (fun r => r = s) then Placement.named s else Placement.conflict := by
  cases l with
  | nil => simp at h
  | cons a rest =>
    by_cases ha : a = s
    · subst ha
      simp [assignSection]
    · have hs : s ∈ rest := by
        rcases List.mem_cons.mp h with h | h
        · exact absurd h.symm ha
        · exact h
      have hne : ¬ ∀ x ∈ rest, x = a := fun hall => ha (hall s hs).symm
      simp [assignSection, ha, hne]

/-! ## Lines after the header -/

theorem markerFixed_of_macros {m : List Token} {s s1 : PPState}
    (hs : markerFixed m s) (h : s1.macros = s.macros) : markerFixed m s1 := by
  unfold markerFixed at *
  rw [h]
  exact hs

theorem markerFixed_defineMacro {m : List Token} {s : PPState} (n : String)
    (body : List Token) (hs : markerFixed m s) (h1 : n ≠ FAST_FUNC) (h2 : n ≠ FASTFUNC_H_) :
    markerFixed m { s with macros := defineMacro s.macros n body } := by
  obtain ⟨hg, hm⟩ := hs
  refine ⟨?_, ?_⟩
  · simpa [isDefined, lookupMacro_defineMacro_ne s.macros body h2] using hg
  · simpa [lookupMacro_defineMacro_ne s.macros body h1] using hm

theorem markerFixed_undefMacro {m : List Token} {s : PPState} (n : String)
    (hs : markerFixed m s) (h1 : n ≠ FAST_FUNC) (h2 : n ≠ FASTFUNC_H_) :
    markerFixed m { s with macros := undefMacro s.macros n } := by
  obtain ⟨hg, hm⟩ := hs
  refine ⟨?_, ?_⟩
  · simpa [isDefined, lookupMacro_undefMacro_ne s.macros h2] using hg
  · simpa [lookupMacro_undefMacro_ne s.macros h1] using hm

/-- Once the guard is defined an inclusion of the header changes nothing,
whether lines are being processed or skipped. -/
theorem includeFile_again (s : PPState) (hg : isDefined s.macros FASTFUNC_H_ = true) :
    includeFile fastfunc_h s = Except.ok s := by
  cases hact : s.active with
  | true => simp [includeFile_fastfunc_h s hact, hg]
  | false => simp [includeFile, hact]

/-- A line that leaves the marker alone keeps its replacement list. -/
theorem stepItem_markerFixed (m : List Token) (s s1 : PPState) (i : Item)
    (hs : markerFixed m s) (hi : leavesMarkerAlone i = true)
    (h : stepItem s i = Except.ok s1) : markerFixed m s1 := by
  cases i with
  | line d =>
    cases d with
    | text toks =>
      simp only [stepItem, step, Except.ok.injEq] at h
      subst h
      cases s.active <;> exact markerFixed_of_macros hs (by simp)
    | define n body =>
      simp only [leavesMarkerAlone, decide_eq_true_eq] at hi
      simp only [stepItem, step, Except.ok.injEq] at h
      subst h
      cases s.active
      · simpa using hs
      · simpa using markerFixed_defineMacro n body hs hi.1 hi.2
    | undef n =>
      simp only [leavesMarkerAlone, decide_eq_true_eq] at hi
      simp only [stepItem, step, Except.ok.injEq] at h
      subst h
      cases s.active
      · simpa using hs
      · simpa using markerFixed_undefMacro n hs hi.1 hi.2
    | ifdef n =>
      simp only [stepItem, step, Except.ok.injEq] at h
      subst h
      exact markerFixed_of_macros hs rfl
    | ifndef n =>
      simp only [stepItem, step, Except.ok.injEq] at h
      subst h
      exact markerFixed_of_macros hs rfl
    | elseD =>
      simp only [stepItem, step] at h
      split at h
      · simp at h
      · split at h
        · simp at h
        · simp only [Except.ok.injEq] at h
          subst h
          exact markerFixed_of_macros hs rfl
    | endif =>
      simp only [stepItem, step] at h
      split at h
      · simp at h
      · simp only [Except.ok.injEq] at h
        subst h
        exact markerFixed_of_macros hs rfl
  | incl file =>
    simp only [leavesMarkerAlone, decide_eq_true_eq] at hi
    subst hi
    simp only [stepItem, includeFile_again s hs.1, Except.ok.injEq] at h
    subst h
    exact hs

theorem runItems_markerFixed (m : List Token) (rest : List Item) :
    ∀ s s1 : PPState, markerFixed m s → (∀ i ∈ rest, leavesMarkerAlone i = true) →
      runItems rest s = Except.ok s1 → markerFixed m s1 := by
  induction rest with
  | nil =>
    intro s s1 hs _ h
    simp only [runItems, Except.ok.injEq] at h
    subst h
    exact hs
  | cons i rest ih =>
    intro s s1 hs hall h
    simp only [runItems] at h
    cases hstep : stepItem s i with
    | error e => simp [hstep] at h
    | ok s2 =>
      simp only [hstep] at h
      exact ih s2 s1 (stepItem_markerFixed m s s2 i hs (hall i (List.mem_cons_self _ _)) hstep)
        (fun j hj => hall j (List.mem_cons_of_mem _ hj)) h

/-- Outside conditional groups, a line that leaves the marker alone and is not
a conditional directive is processed without error. -/
theorem stepItem_unconditional (m : List Token) (s : PPState) (i : Item)
    (hs : markerFixed m s) (hc : s.conds = [])
    (hi : leavesMarkerAlone i = true) (hu : unconditional i = true) :
    ∃ s1, stepItem s i = Except.ok s1 ∧ s1.conds = [] := by
  cases i with
  | line d =>
    cases d with
    | text toks => exact ⟨_, rfl, by cases s.active <;> simp [hc]⟩
    | define n body => exact ⟨_, rfl, by cases s.active <;> simp [hc]⟩
    | undef n => exact ⟨_, rfl, by cases s.active <;> simp [hc]⟩
    | ifdef n => simp [unconditional] at hu
    | ifndef n => simp [unconditional] at hu
    | elseD => simp [unconditional] at hu
    | endif => simp [unconditional] at hu
  | incl file =>
    simp only [leavesMarkerAlone, decide_eq_true_eq] at hi
    subst hi
    exact ⟨s, by simp [stepItem, includeFile_again s hs.1], hc⟩

theorem runItems_unconditional (m : List Token) (rest : List Item) :
    ∀ s : PPState, markerFixed m s → s.conds = [] →
      (∀ i ∈ rest, leavesMarkerAlone i = true) → (∀ i ∈ rest, unconditional i = true) →
      ∃ s1, runItems rest s = Except.ok s1 ∧ s1.conds = [] := by
  induction rest with
  | nil => intro s _ hc _ _; exact ⟨s, rfl, hc⟩
  | cons i rest ih =>
    intro s hs hc hall hun
    obtain ⟨s1, h1, hc1⟩ := stepItem_unconditional m s i hs hc
      (hall i (List.mem_cons_self _ _)) (hun i (List.mem_cons_self _ _))
    obtain ⟨s2, h2, hc2⟩ := ih s1
      (stepItem_markerFixed m s s1 i hs (hall i (List.mem_cons_self _ _)) h1) hc1
      (fun j hj => hall j (List.mem_cons_of_mem _ hj))
      (fun j hj => hun j (List.mem_cons_of_mem _ hj))
    exact ⟨s2, by simp [runItems, h1, h2], hc2⟩

/-! ## The claims -/

/-- C1: when `CODE_IN_RAM` is defined at the first inclusion of `fastfunc.h`,
processing the header succeeds and defines `FAST_FUNC` with exactly the
replacement list `__attribute__ ((section (".data")))`, an attribute that asks
for the one section `.data`.  When `__attribute__` and `section` are not
macros themselves, a marked declaration `FAST_FUNC d` is preprocessed to that
attribute followed by the text of `d`, and a declaration that asks for no
section of its own is placed in `.data`, not in the default section. -/
theorem flag_defined_selects_section_attribute (env0 : MacroEnv) (v : List Token)
    (hguard : lookupMacro env0 FASTFUNC_H_ = none)
    (hflag : lookupMacro env0 CODE_IN_RAM = some v) :
    ∃ env1 : MacroEnv,
      includeFile fastfunc_h (initState env0) =
        Except.ok { macros := env1, conds := [], out := [[], []] } ∧
      lookupMacro env1 FAST_FUNC = some sectionAttr ∧
      sectionRequests sectionAttr = [".data"] ∧
      (lookupMacro env0 "__attribute__" = none → lookupMacro env0 "section" = none →
        ∀ d : List Token,
          preprocess [Item.incl fastfunc_h,
              Item.line (Directive.text (Token.ident FAST_FUNC :: d))] env0 =
            Except.ok { macros := env1, conds := [],
                        out := [[], [], sectionAttr ++ expandLine env1 d] } ∧
          (sectionRequests (expandLine env1 d) = [] →
            placementOf [[], [], sectionAttr ++ expandLine env1 d] = Placement.named ".data" ∧
            placementOf [[], [], sectionAttr ++ expandLine env1 d] ≠ Placement.default)) := by
  have hdef := isDefined_eq_true_of_lookup hflag
  refine ⟨afterHeader env0, includeFile_first env0 hguard, ?_, ?_, ?_⟩
  · simp [lookupMacro_afterHeader_marker, hdef]
  · have := sectionRequests_sectionAttr_append []
    simpa [sectionRequests] using this
  · intro h1 h2 d
    refine ⟨?_, ?_⟩
    · rw [preprocess_header_line env0 _ hguard, expandLine_marked_on env0 d hdef h1 h2]
    · intro hd
      simp [placementOf, sectionRequests_nil, sectionRequests_sectionAttr_append, hd,
        assignSection]

/-- C1 at the configuration `-DCODE_IN_RAM` and the declaration
`FAST_FUNC void tick (void);`. -/
theorem flag_defined_selects_section_attribute_witness :
    ∃ env1 : MacroEnv,
      includeFile fastfunc_h (initState [(CODE_IN_RAM, [])]) =
        Except.ok { macros := env1, conds := [], out := [[], []] } ∧
      lookupMacro env1 FAST_FUNC = some sectionAttr ∧
      preprocess [Item.incl fastfunc_h,
          Item.line (Directive.text [Token.ident FAST_FUNC, Token.ident "void",
            Token.ident "tick", Token.punct "(", Token.ident "void", Token.punct ")",
            Token.punct ";"])] [(CODE_IN_RAM, [])] =
        Except.ok { macros := env1, conds := [],
                    out := [[], [], sectionAttr ++ expandLine env1 [Token.ident "void",
                      Token.ident "tick", Token.punct "(", Token.ident "void",
                      Token.punct ")", Token.punct ";"]] } := by
  obtain ⟨env1, h1, h2, _, h4⟩ :=
    flag_defined_selects_section_attribute [(CODE_IN_RAM, [])] [] (by decide) (by decide)
  exact ⟨env1, h1, h2, (h4 (by decide) (by decide) _).1⟩

/-- C2: when `CODE_IN_RAM` is undefined at the first inclusion of
`fastfunc.h`, processing the header succeeds and defines `FAST_FUNC` with the
empty replacement list.  For every declaration `d` the marked line
`FAST_FUNC d` is then preprocessed to exactly the tokens of `d` without a
marker, the two translation units give the same result, and a declaration
that asks for no section stays in the default section. -/
theorem flag_undefined_marker_is_empty (env0 : MacroEnv)
    (hguard : lookupMacro env0 FASTFUNC_H_ = none)
    (hflag : lookupMacro env0 CODE_IN_RAM = none) :
    ∃ env1 : MacroEnv,
      includeFile fastfunc_h (initState env0) =
        Except.ok { macros := env1, conds := [], out := [[], []] } ∧
      lookupMacro env1 FAST_FUNC = some [] ∧
      ∀ d : List Token,
        expandLine env1 (Token.ident FAST_FUNC :: d) = expandLine env1 d ∧
        preprocess [Item.incl fastfunc_h,
            Item.line (Directive.text (Token.ident FAST_FUNC :: d))] env0 =
          Except.ok { macros := env1, conds := [], out := [[], [], expandLine env1 d] } ∧
        preprocess [Item.incl fastfunc_h,
            Item.line (Directive.text (Token.ident FAST_FUNC :: d))] env0 =
          preprocess [Item.incl fastfunc_h, Item.line (Directive.text d)] env0 ∧
        (sectionRequests (expandLine env1 d) = [] →
          placementOf [[], [], expandLine env1 d] = Placement.default) := by
  have hdef := isDefined_eq_false_of_lookup hflag
  refine ⟨afterHeader env0, includeFile_first env0 hguard, ?_, ?_⟩
  · simp [lookupMacro_afterHeader_marker, hdef]
  · intro d
    have hexp := expandLine_marked_off env0 d hdef
    refine ⟨hexp, ?_, ?_, ?_⟩
    · rw [preprocess_header_line env0 _ hguard, hexp]
    · rw [preprocess_header_line env0 _ hguard, preprocess_header_line env0 _ hguard, hexp]
    · intro hd
      simp [placementOf, sectionRequests_nil, hd, assignSection]

/-- C2 at the configuration without macros and the declaration
`FAST_FUNC void tick (void);`. -/
theorem flag_undefined_marker_is_empty_witness :
    preprocess [Item.incl fastfunc_h,
        Item.line (Directive.text [Token.ident FAST_FUNC, Token.ident "void",
          Token.ident "tick", Token.punct "(", Token.ident "void", Token.punct ")",
          Token.punct ";"])] [] =
      preprocess [Item.incl fastfunc_h,
        Item.line (Directive.text [Token.ident "void",
          Token.ident "tick", Token.punct "(", Token.ident "void", Token.punct ")",
          Token.punct ";"])] [] := by
  obtain ⟨_, _, _, h⟩ := flag_undefined_marker_is_empty [] (by decide) (by decide)
  exact (h _).2.2.1

/-- C3: the selection is total and deterministic with two outcomes.  For
every configuration, flag defined or not, the first inclusion of `fastfunc.h`
succeeds and defines `FAST_FUNC`; its replacement list is the section
attribute or empty and nothing else, a function of the flag state; two
configurations with the same flag state get the same replacement list; and
an inclusion of the header raises no error in any state at all. -/
theorem selection_total_two_outcomes (env0 env0' : MacroEnv)
    (hguard : lookupMacro env0 FASTFUNC_H_ = none)
    (hguard' : lookupMacro env0' FASTFUNC_H_ = none)
    (hsame : isDefined env0 CODE_IN_RAM = isDefined env0' CODE_IN_RAM) :
    ∃ env1 env1' : MacroEnv,
      includeFile fastfunc_h (initState env0) =
        Except.ok { macros := env1, conds := [], out := [[], []] } ∧
      includeFile fastfunc_h (initState env0') =
        Except.ok { macros := env1', conds := [], out := [[], []] } ∧
      (lookupMacro env1 FAST_FUNC = some sectionAttr ∨ lookupMacro env1 FAST_FUNC = some []) ∧
      lookupMacro env1 FAST_FUNC =
        some (if isDefined env0 CODE_IN_RAM then sectionAttr else []) ∧
      lookupMacro env1 FAST_FUNC = lookupMacro env1' FAST_FUNC ∧
      ∀ s : PPState, ∃ s1 : PPState, includeFile fastfunc_h s = Except.ok s1 := by
  refine ⟨afterHeader env0, afterHeader env0', includeFile_first env0 hguard,
    includeFile_first env0' hguard', ?_, lookupMacro_afterHeader_marker env0, ?_, ?_⟩
  · rw [lookupMacro_afterHeader_marker]
    cases isDefined env0 CODE_IN_RAM <;> simp
  · rw [lookupMacro_afterHeader_marker, lookupMacro_afterHeader_marker, hsame]
  · intro s
    cases hact : s.active with
    | true => exact ⟨_, includeFile_fastfunc_h s hact⟩
    | false => exact ⟨s, by simp [includeFile, hact]⟩

/-- C3 at two configurations that both define the flag, with different
values and different other macros. -/
theorem selection_total_two_outcomes_witness :
    ∃ env1 env1' : MacroEnv,
      includeFile fastfunc_h (initState [(CODE_IN_RAM, [Token.number "1"])]) =
        Except.ok { macros := env1, conds := [], out := [[], []] } ∧
      includeFile fastfunc_h (initState [("NDEBUG", []), (CODE_IN_RAM, [])]) =
        Except.ok { macros := env1', conds := [], out := [[], []] } ∧
      lookupMacro env1 FAST_FUNC = lookupMacro env1' FAST_FUNC := by
  obtain ⟨env1, env1', h1, h2, _, _, h5, _⟩ :=
    selection_total_two_outcomes [(CODE_IN_RAM, [Token.number "1"])]
      [("NDEBUG", []), (CODE_IN_RAM, [])] (by decide) (by decide) (by decide)
  exact ⟨env1, env1', h1, h2, h5⟩

/-- C8: the selection looks at whether `CODE_IN_RAM` is defined and never at
its replacement list.  Whatever the flag is defined as (nothing, `0`, any
tokens), `FAST_FUNC` gets the section attribute, and a marked declaration of a
configuration built with `CODE_IN_RAM=0` asks for the section `.data`; the
empty marker is selected exactly when the flag is undefined. -/
theorem selection_ignores_flag_value (env0 : MacroEnv) (v : List Token)
    (hguard : lookupMacro env0 FASTFUNC_H_ = none) :
    (∃ env1 : MacroEnv,
      includeFile fastfunc_h (initState (defineMacro env0 CODE_IN_RAM v)) =
        Except.ok { macros := env1, conds := [], out := [[], []] } ∧
      lookupMacro env1 FAST_FUNC = some sectionAttr) ∧
    (∃ env1 : MacroEnv,
      includeFile fastfunc_h (initState env0) =
        Except.ok { macros := env1, conds := [], out := [[], []] } ∧
      (lookupMacro env1 FAST_FUNC = some [] ↔ lookupMacro env0 CODE_IN_RAM = none) ∧
      (lookupMacro env1 FAST_FUNC = some sectionAttr ↔
        ∃ w, lookupMacro env0 CODE_IN_RAM = some w)) ∧
    (lookupMacro env0 "__attribute__" = none → lookupMacro env0 "section" = none →
      ∀ d : List Token, ∃ s : PPState,
        preprocess [Item.incl fastfunc_h,
            Item.line (Directive.text (Token.ident FAST_FUNC :: d))]
          (defineMacro env0 CODE_IN_RAM [Token.number "0"]) = Except.ok s ∧
        s.out.flatMap sectionRequests =
          ".data" :: sectionRequests (expandLine s.macros d)) := by
  have hg : ∀ w, lookupMacro (defineMacro env0 CODE_IN_RAM w) FASTFUNC_H_ = none := by
    intro w
    rw [lookupMacro_defineMacro_ne _ _ (Ne.symm guard_ne_flag), hguard]
  have hd : ∀ w, isDefined (defineMacro env0 CODE_IN_RAM w) CODE_IN_RAM = true := by
    intro w
    simp [isDefined, lookupMacro_defineMacro_self]
  refine ⟨⟨_, includeFile_first _ (hg v), ?_⟩, ⟨_, includeFile_first env0 hguard, ?_, ?_⟩, ?_⟩
  · simp [lookupMacro_afterHeader_marker, hd]
  · rw [lookupMacro_afterHeader_marker]
    cases h : lookupMacro env0 CODE_IN_RAM with
    | none => simp [isDefined, h]
    | some w => simp [isDefined, h, sectionAttr]
  · rw [lookupMacro_afterHeader_marker]
    cases h : lookupMacro env0 CODE_IN_RAM with
    | none => simp [isDefined, h, sectionAttr]
    | some w => simp [isDefined, h]
  · intro h1 h2 d
    refine ⟨_, preprocess_header_line _ _ (hg _), ?_⟩
    have h1' : lookupMacro (defineMacro env0 CODE_IN_RAM [Token.number "0"]) "__attribute__"
        = none := by
      rw [lookupMacro_defineMacro_ne _ _ (by decide), h1]
    have h2' : lookupMacro (defineMacro env0 CODE_IN_RAM [Token.number "0"]) "section"
        = none := by
      rw [lookupMacro_defineMacro_ne _ _ (by decide), h2]
    simp only [List.flatMap_cons, List.flatMap_nil, sectionRequests_nil, List.nil_append,
      List.append_nil]
    rw [expandLine_marked_on _ d (hd _) h1' h2', sectionRequests_sectionAttr_append]

/-- C8 at a configuration whose only macro is the flag, defined as `0`, and
the declaration `FAST_FUNC void tick (void);`. -/
theorem selection_ignores_flag_value_witness :
    (∃ env1 : MacroEnv,
      includeFile fastfunc_h (initState (defineMacro [] CODE_IN_RAM [Token.number "0"])) =
        Except.ok { macros := env1, conds := [], out := [[], []] } ∧
      lookupMacro env1 FAST_FUNC = some sectionAttr) ∧
    ∃ s : PPState,
      preprocess [Item.incl fastfunc_h,
          Item.line (Directive.text [Token.ident FAST_FUNC, Token.ident "void",
            Token.ident "tick", Token.punct "(", Token.ident "void", Token.punct ")",
            Token.punct ";"])]
        (defineMacro [] CODE_IN_RAM [Token.number "0"]) = Except.ok s ∧
      s.out.flatMap sectionRequests =
        ".data" :: sectionRequests (expandLine s.macros [Token.ident "void",
          Token.ident "tick", Token.punct "(", Token.ident "void", Token.punct ")",
          Token.punct ";"]) :=
  ⟨(selection_ignores_flag_value [] [Token.number "0"] (by decide)).1,
    (selection_ignores_flag_value [] [Token.number "0"] (by decide)).2.2
      (by decide) (by decide) _⟩

/-- C4: the marker on both the declaration and the definition of a function
gives the same placement as the marker on only one of them, for either flag
state.  For a function that asks for no section of its own the two
applications ask for the same section `.data` when the flag is defined (no
conflict) and for nothing when it is undefined. -/
theorem marker_twice_same_as_once (env0 : MacroEnv) (decl defn : List Token)
    (hguard : lookupMacro env0 FASTFUNC_H_ = none)
    (h1 : isDefined env0 CODE_IN_RAM = true → lookupMacro env0 "__attribute__" = none)
    (h2 : isDefined env0 CODE_IN_RAM = true → lookupMacro env0 "section" = none) :
    ∃ twice onDecl onDefn : PPState,
      preprocess [Item.incl fastfunc_h,
          Item.line (Directive.text (Token.ident FAST_FUNC :: decl)),
          Item.line (Directive.text (Token.ident FAST_FUNC :: defn))] env0 = Except.ok twice ∧
      preprocess [Item.incl fastfunc_h,
          Item.line (Directive.text (Token.ident FAST_FUNC :: decl)),
          Item.line (Directive.text defn)] env0 = Except.ok onDecl ∧
      preprocess [Item.incl fastfunc_h,
          Item.line (Directive.text decl),
          Item.line (Directive.text (Token.ident FAST_FUNC :: defn))] env0 = Except.ok onDefn ∧
      placementOf twice.out = placementOf onDecl.out ∧
      placementOf twice.out = placementOf onDefn.out ∧
      (sectionRequests (expandLine twice.macros decl) = [] →
        sectionRequests (expandLine twice.macros defn) = [] →
        twice.out.flatMap sectionRequests =
          (if isDefined env0 CODE_IN_RAM then [".data", ".data"] else []) ∧
        placementOf twice.out =
          (if isDefined env0 CODE_IN_RAM then Placement.named ".data"
            else Placement.default)) := by
  refine ⟨_, _, _, preprocess_header_two_lines env0 _ _ hguard,
    preprocess_header_two_lines env0 _ _ hguard,
    preprocess_header_two_lines env0 _ _ hguard, ?_⟩
  cases hf : isDefined env0 CODE_IN_RAM with
  | false =>
    refine ⟨?_, ?_, ?_⟩
    · simp only [expandLine_marked_off env0 _ hf]
    · simp only [expandLine_marked_off env0 _ hf]
    · intro hd1 hd2
      simp only [expandLine_marked_off env0 _ hf]
      simp [placementOf, sectionRequests_nil, hd1, hd2, assignSection]
  | true =>
    simp only [expandLine_marked_on env0 _ hf (h1 hf) (h2 hf), placementOf,
      List.flatMap_cons, List.flatMap_nil, sectionRequests_nil, List.nil_append,
      List.append_nil, sectionRequests_sectionAttr_append]
    refine ⟨?_, ?_, ?_⟩
    · rw [assignSection_of_mem ".data" _ (by simp), assignSection_of_mem ".data" _ (by simp)]
      simp [List.all_append]
    · rw [assignSection_of_mem ".data" _ (by simp), assignSection_of_mem ".data" _ (by simp)]
      simp [List.all_append]
    · intro hd1 hd2
      simp [hd1, hd2, assignSection]

/-- C4 at the configuration `-DCODE_IN_RAM`, the declaration
`FAST_FUNC void tick (void);` and the definition
`FAST_FUNC void tick (void) \x7b \x7d`. -/
theorem marker_twice_same_as_once_witness :
    ∃ twice onDefn : PPState,
      preprocess [Item.incl fastfunc_h,
          Item.line (Directive.text [Token.ident FAST_FUNC, Token.ident "void",
            Token.ident "tick", Token.punct "(", Token.ident "void", Token.punct ")",
            Token.punct ";"]),
          Item.line (Directive.text [Token.ident FAST_FUNC, Token.ident "void",
            Token.ident "tick", Token.punct "(", Token.ident "void", Token.punct ")",
            Token.punct "\x7b", Token.punct "\x7d"])] [(CODE_IN_RAM, [])] = Except.ok twice ∧
      preprocess [Item.incl fastfunc_h,
          Item.line (Directive.text [Token.ident "void",
            Token.ident "tick", Token.punct "(", Token.ident "void", Token.punct ")",
            Token.punct ";"]),
          Item.line (Directive.text [Token.ident FAST_FUNC, Token.ident "void",
            Token.ident "tick", Token.punct "(", Token.ident "void", Token.punct ")",
            Token.punct "\x7b", Token.punct "\x7d"])] [(CODE_IN_RAM, [])] = Except.ok onDefn ∧
      placementOf twice.out = placementOf onDefn.out ∧
      placementOf twice.out = Placement.named ".data" := by
  obtain ⟨twice, _, onDefn, h1, _, h3, _, h5, h6⟩ :=
    marker_twice_same_as_once [(CODE_IN_RAM, [])] _ _ (by decide) (by decide) (by decide)
  refine ⟨twice, onDefn, h1, h3, h5, ?_⟩
  have e : Except.ok twice = Except.ok _ :=
    h1.symm.trans (preprocess_header_two_lines _ _ _ (by decide))
  injection e with e
  subst e
  exact (h6 (by decide) (by decide)).2

/-- C5: toggling the flag changes only the section attribute of a marked
function.  For a declaration `d` that reaches neither the marker nor the flag
through macros, `FAST_FUNC d` is preprocessed to the text `X` of `d` with the
flag undefined and to the section attribute followed by the same `X` with the
flag defined: the marker contributes the one attribute or nothing, and every
other token (name, types, linkage, body) is the same. -/
theorem toggling_flag_changes_only_section (env0 : MacroEnv) (v d : List Token)
    (hguard : lookupMacro env0 FASTFUNC_H_ = none)
    (hflag : lookupMacro env0 CODE_IN_RAM = none)
    (h1 : lookupMacro env0 "__attribute__" = none)
    (h2 : lookupMacro env0 "section" = none)
    (hd1 : Token.ident FAST_FUNC ∉ d) (hd2 : Token.ident CODE_IN_RAM ∉ d)
    (hm1 : nowhereMentioned env0 FAST_FUNC) (hm2 : nowhereMentioned env0 CODE_IN_RAM) :
    ∃ (X : List Token) (envOff envOn : MacroEnv),
      preprocess [Item.incl fastfunc_h,
          Item.line (Directive.text (Token.ident FAST_FUNC :: d))] env0 =
        Except.ok { macros := envOff, conds := [], out := [[], [], X] } ∧
      preprocess [Item.incl fastfunc_h,
          Item.line (Directive.text (Token.ident FAST_FUNC :: d))]
          (defineMacro env0 CODE_IN_RAM v) =
        Except.ok { macros := envOn, conds := [], out := [[], [], sectionAttr ++ X] } ∧
      lookupMacro envOff FAST_FUNC = some [] ∧
      lookupMacro envOn FAST_FUNC = some sectionAttr ∧
      sectionRequests (sectionAttr ++ X) = ".data" :: sectionRequests X := by
  have hoff := isDefined_eq_false_of_lookup hflag
  have hon : isDefined (defineMacro env0 CODE_IN_RAM v) CODE_IN_RAM = true := by
    simp [isDefined, lookupMacro_defineMacro_self]
  have hg : lookupMacro (defineMacro env0 CODE_IN_RAM v) FASTFUNC_H_ = none := by
    rw [lookupMacro_defineMacro_ne _ _ (Ne.symm guard_ne_flag), hguard]
  have h1' : lookupMacro (defineMacro env0 CODE_IN_RAM v) "__attribute__" = none := by
    rw [lookupMacro_defineMacro_ne _ _ (by decide), h1]
  have h2' : lookupMacro (defineMacro env0 CODE_IN_RAM v) "section" = none := by
    rw [lookupMacro_defineMacro_ne _ _ (by decide), h2]
  refine ⟨expandLine (afterHeader env0) d, afterHeader env0,
    afterHeader (defineMacro env0 CODE_IN_RAM v), ?_, ?_, ?_, ?_,
    sectionRequests_sectionAttr_append _⟩
  · rw [preprocess_header_line env0 _ hguard, expandLine_marked_off env0 d hoff]
  · rw [preprocess_header_line _ _ hg, expandLine_marked_on _ d hon h1' h2',
      expandLine_afterHeader_flag env0 v d hd1 hd2 hm1 hm2]
  · simp [lookupMacro_afterHeader_marker, hoff]
  · simp [lookupMacro_afterHeader_marker, hon]

/-- C5 at a configuration with one other macro, `#define u8 unsigned char`,
the flag value `1` and the declaration `FAST_FUNC u8 tick (void);`. -/
theorem toggling_flag_changes_only_section_witness :
    ∃ (X : List Token) (envOff envOn : MacroEnv),
      preprocess [Item.incl fastfunc_h,
          Item.line (Directive.text [Token.ident FAST_FUNC, Token.ident "u8",
            Token.ident "tick", Token.punct "(", Token.ident "void", Token.punct ")",
            Token.punct ";"])] [("u8", [Token.ident "unsigned", Token.ident "char"])] =
        Except.ok { macros := envOff, conds := [], out := [[], [], X] } ∧
      preprocess [Item.incl fastfunc_h,
          Item.line (Directive.text [Token.ident FAST_FUNC, Token.ident "u8",
            Token.ident "tick", Token.punct "(", Token.ident "void", Token.punct ")",
            Token.punct ";"])]
          (defineMacro [("u8", [Token.ident "unsigned", Token.ident "char"])] CODE_IN_RAM
            [Token.number "1"]) =
        Except.ok { macros := envOn, conds := [], out := [[], [], sectionAttr ++ X] } := by
  obtain ⟨X, envOff, envOn, h1, h2, _⟩ :=
    toggling_flag_changes_only_section [("u8", [Token.ident "unsigned", Token.ident "char"])]
      [Token.number "1"] [Token.ident "u8", Token.ident "tick", Token.punct "(",
        Token.ident "void", Token.punct ")", Token.punct ";"]
      (by decide) (by decide) (by decide) (by decide) (by decide) (by decide)
      (by decide) (by decide)
  exact ⟨X, envOff, envOn, h1, h2⟩

/-- C6: the marker is opt-in per function.  A declaration `d` without the
marker (which reaches neither `FAST_FUNC` nor `CODE_IN_RAM` through macros) is
preprocessed to the same text, and gets the same placement, whether the flag
is defined or not, although the marker itself differs between the two
configurations; a declaration that asks for no section stays in the default
section in both. -/
theorem unmarked_declaration_unaffected (env0 : MacroEnv) (v d : List Token)
    (hguard : lookupMacro env0 FASTFUNC_H_ = none)
    (hflag : lookupMacro env0 CODE_IN_RAM = none)
    (hd1 : Token.ident FAST_FUNC ∉ d) (hd2 : Token.ident CODE_IN_RAM ∉ d)
    (hm1 : nowhereMentioned env0 FAST_FUNC) (hm2 : nowhereMentioned env0 CODE_IN_RAM) :
    ∃ soff son : PPState,
      preprocess [Item.incl fastfunc_h, Item.line (Directive.text d)] env0 = Except.ok soff ∧
      preprocess [Item.incl fastfunc_h, Item.line (Directive.text d)]
        (defineMacro env0 CODE_IN_RAM v) = Except.ok son ∧
      lookupMacro soff.macros FAST_FUNC = some [] ∧
      lookupMacro son.macros FAST_FUNC = some sectionAttr ∧
      son.out = soff.out ∧
      placementOf son.out = placementOf soff.out ∧
      (sectionRequests (expandLine soff.macros d) = [] →
        placementOf son.out = Placement.default ∧
        placementOf soff.out = Placement.default) := by
  have hoff := isDefined_eq_false_of_lookup hflag
  have hon : isDefined (defineMacro env0 CODE_IN_RAM v) CODE_IN_RAM = true := by
    simp [isDefined, lookupMacro_defineMacro_self]
  have hg : lookupMacro (defineMacro env0 CODE_IN_RAM v) FASTFUNC_H_ = none := by
    rw [lookupMacro_defineMacro_ne _ _ (Ne.symm guard_ne_flag), hguard]
  have he := expandLine_afterHeader_flag env0 v d hd1 hd2 hm1 hm2
  refine ⟨_, _, preprocess_header_line env0 _ hguard, preprocess_header_line _ _ hg,
    ?_, ?_, ?_, ?_, ?_⟩
  · simp [lookupMacro_afterHeader_marker, hoff]
  · simp [lookupMacro_afterHeader_marker, hon]
  · simp only [he]
  · simp only [he]
  · intro hd
    simp [placementOf, sectionRequests_nil, he, hd, assignSection]

/-- C6 at the configuration without macros, the flag value empty and the
declaration `void helper (void);`. -/
theorem unmarked_declaration_unaffected_witness :
    ∃ soff son : PPState,
      preprocess [Item.incl fastfunc_h, Item.line (Directive.text [Token.ident "void",
        Token.ident "helper", Token.punct "(", Token.ident "void", Token.punct ")",
        Token.punct ";"])] [] = Except.ok soff ∧
      preprocess [Item.incl fastfunc_h, Item.line (Directive.text [Token.ident "void",
        Token.ident "helper", Token.punct "(", Token.ident "void", Token.punct ")",
        Token.punct ";"])] (defineMacro [] CODE_IN_RAM []) = Except.ok son ∧
      son.out = soff.out := by
  obtain ⟨soff, son, h1, h2, _, _, h5, _⟩ :=
    unmarked_declaration_unaffected [] [] [Token.ident "void", Token.ident "helper",
      Token.punct "(", Token.ident "void", Token.punct ")", Token.punct ";"]
      (by decide) (by decide) (by decide) (by decide) (by decide) (by decide)
  exact ⟨soff, son, h1, h2, h5⟩

/-- C7: the flag is looked at once, when the header is first included.  Let
the lines after that inclusion leave `FAST_FUNC` and the guard alone (text,
conditional directives, definitions and removals of `CODE_IN_RAM` or of other
macros, further inclusions of the header).  Then in every state reached
`FAST_FUNC` still has the replacement list selected by the flag state at the
first inclusion, a use `FAST_FUNC d` is replaced by that list (rescanned) and
the text of `d`, and one more inclusion of the header changes nothing at all;
and when none of those lines is a conditional directive, preprocessing
succeeds. -/
theorem marker_fixed_at_first_inclusion (env0 : MacroEnv) (rest : List Item)
    (hguard : lookupMacro env0 FASTFUNC_H_ = none)
    (hrest : ∀ i ∈ rest, leavesMarkerAlone i = true) :
    (∀ s : PPState,
      runItems (Item.incl fastfunc_h :: rest) (initState env0) = Except.ok s →
        lookupMacro s.macros FAST_FUNC =
          some (if isDefined env0 CODE_IN_RAM then sectionAttr else []) ∧
        (∀ d : List Token,
          expandLine s.macros (Token.ident FAST_FUNC :: d) =
            expandLine (undefMacro s.macros FAST_FUNC)
              (if isDefined env0 CODE_IN_RAM then sectionAttr else []) ++
            expandLine s.macros d) ∧
        includeFile fastfunc_h s = Except.ok s) ∧
    ((∀ i ∈ rest, unconditional i = true) →
      ∃ s : PPState,
        runItems (Item.incl fastfunc_h :: rest) (initState env0) = Except.ok s ∧
        s.conds = []) := by
  have h0 : markerFixed (if isDefined env0 CODE_IN_RAM then sectionAttr else [])
      { macros := afterHeader env0, conds := [], out := [[], []] } :=
    ⟨isDefined_eq_true_of_lookup (lookupMacro_afterHeader_guard env0),
      lookupMacro_afterHeader_marker env0⟩
  have hrun : ∀ r, runItems (Item.incl fastfunc_h :: rest) (initState env0) = r ↔
      runItems rest { macros := afterHeader env0, conds := [], out := [[], []] } = r := by
    intro r
    simp [runItems, stepItem, includeFile_first env0 hguard]
  refine ⟨?_, ?_⟩
  · intro s hs
    obtain ⟨hg, hm⟩ := runItems_markerFixed _ rest _ s h0 hrest ((hrun _).mp hs)
    exact ⟨hm, fun d => expandLine_macro_cons _ _ _ _ hm, includeFile_again s hg⟩
  · intro hun
    obtain ⟨s, hs, hc⟩ := runItems_unconditional _ rest _ h0 rfl hrest hun
    exact ⟨s, (hrun _).mpr hs, hc⟩

/-- C7 at a translation unit that starts without the flag, includes the
header, then defines the flag, includes the header again and uses the
marker: preprocessing succeeds and the marker is still empty. -/
theorem marker_fixed_at_first_inclusion_witness :
    ∃ s : PPState,
      runItems [Item.incl fastfunc_h,
        Item.line (Directive.define CODE_IN_RAM [Token.number "1"]),
        Item.incl fastfunc_h,
        Item.line (Directive.text [Token.ident FAST_FUNC, Token.ident "void",
          Token.ident "tick", Token.punct "(", Token.ident "void", Token.punct ")",
          Token.punct ";"])] (initState []) = Except.ok s ∧
      lookupMacro s.macros FAST_FUNC = some [] ∧
      includeFile fastfunc_h s = Except.ok s := by
  obtain ⟨hall, hex⟩ :=
    marker_fixed_at_first_inclusion []
      [Item.line (Directive.define CODE_IN_RAM [Token.number "1"]),
        Item.incl fastfunc_h,
        Item.line (Directive.text [Token.ident FAST_FUNC, Token.ident "void",
          Token.ident "tick", Token.punct "(", Token.ident "void", Token.punct ")",
          Token.punct ";"])] (by decide) (by decide)
  obtain ⟨s, hs, _⟩ := hex (by decide)
  exact ⟨s, hs, (hall s hs).1, (hall s hs).2.2⟩

end FastFunc
